import Mathlib

/-!
Shallow embedding of the microtools object store (`server/objectStore.ts`,
`server/db.ts`) and the route handlers of `server/index.ts` that the
verified properties below are about.  Timestamps are naturals (milliseconds
since the epoch, as produced by `Date.now()`); the `objects` table is a list
of rows, with the PRIMARY KEY uniqueness of `id` enforced by `createWithId`
exactly where SQLite enforces it.  The payload column `data TEXT` is kept as
a type parameter `δ` because the store is payload-agnostic.
-/

namespace Microtools

/-- A row of the `objects` table:
`(id TEXT PRIMARY KEY, type TEXT, data TEXT, created_at INTEGER, expires_at INTEGER)`.
`expires_at` is nullable, hence `Option Nat`. -/
structure Row (δ : Type) where
  id : String
  type : String
  data : δ
  created_at : Nat
  expires_at : Option Nat
deriving Repr, DecidableEq

/-- The `objects` table. -/
abbrev Store (δ : Type) := List (Row δ)

/-- `SELECT * FROM objects WHERE id = ?` (first match). -/
def getRow (id : String) (s : Store δ) : Option (Row δ) :=
  s.find? (fun r => r.id == id)

/-- The lazy-expiration test of `objectStore.get`:
`row.expires_at && row.expires_at < Date.now()`.
JavaScript truthiness makes both `null` and `0` fail the first conjunct. -/
def lazyExpired (now : Nat) : Option Nat → Bool
  | none => false
  | some v => v != 0 && v < now

/-- The sweep condition of `purgeExpired`:
`expires_at IS NOT NULL AND expires_at < ?`.  SQL has no truthiness: `0`
qualifies. -/
def sqlExpired (now : Nat) : Option Nat → Bool
  | none => false
  | some v => v < now

/-- `objectStore.remove`: `DELETE FROM objects WHERE id = ?`; returns whether
any row was deleted, together with the resulting table. -/
def remove (id : String) (s : Store δ) : Bool × Store δ :=
  (s.any (fun r => r.id == id), s.filter (fun r => r.id != id))

/-- `objectStore.get` with lazy expiration: returns the observed object and
the table after the read's side effect. -/
def get (now : Nat) (id : String) (s : Store δ) : Option (Row δ) × Store δ :=
  match getRow id s with
  | none => (none, s)
  | some row =>
    if lazyExpired now row.expires_at then (none, (remove id s).2)
    else (some row, s)

/-- The error surfaced when an `INSERT` hits the `id` PRIMARY KEY
constraint (better-sqlite3 throws `SQLITE_CONSTRAINT_PRIMARYKEY`). -/
inductive StoreError where
  | conflict
deriving Repr, DecidableEq

/-- `objectStore.createWithId`: inserts `(id, type, data, Date.now(), expiresAt)`.
The insert fails with a surfaced constraint violation when `id` already
exists; in that case the table is unchanged. -/
def createWithId (id ty : String) (d : δ) (expiresAt : Option Nat) (now : Nat)
    (s : Store δ) : Except StoreError (Row δ) × Store δ :=
  if s.any (fun r => r.id == id) then (.error .conflict, s)
  else
    let row : Row δ := ⟨id, ty, d, now, expiresAt⟩
    (.ok row, s ++ [row])

/-- `objectStore.create`: mints a fresh id with `generateId()`
(`crypto.randomBytes(8).toString('base64url')`, modelled as the explicit
argument `freshId`) and delegates to `createWithId`.  Note that the third
source parameter is the absolute timestamp `expiresAt`, persisted as given. -/
def create (freshId ty : String) (d : δ) (expiresAt : Option Nat) (now : Nat)
    (s : Store δ) : Except StoreError (Row δ) × Store δ :=
  createWithId freshId ty d expiresAt now s

/-- `objectStore.update`: `UPDATE objects SET data = ? WHERE id = ?`; when no
row matched (`result.changes === 0`) returns null, otherwise returns
`get(id)` — which re-reads through the lazy-expiration path. -/
def update (now : Nat) (id : String) (d : δ) (s : Store δ) :
    Option (Row δ) × Store δ :=
  if s.any (fun r => r.id == id) then
    get now id (s.map (fun r => if r.id == id then { r with data := d } else r))
  else (none, s)

/-- `objectStore.purgeExpired`: `SELECT id, type` of every expired row, then
(only when the selection is nonempty) `DELETE` with the same condition and
the same `now`; returns the selected `{id, type}` pairs. -/
def purgeExpired (now : Nat) (s : Store δ) :
    List (String × String) × Store δ :=
  if ((s.filter (fun r => sqlExpired now r.expires_at)).map
      (fun r => (r.id, r.type))).length > 0 then
    ((s.filter (fun r => sqlExpired now r.expires_at)).map (fun r => (r.id, r.type)),
     s.filter (fun r => !sqlExpired now r.expires_at))
  else
    ((s.filter (fun r => sqlExpired now r.expires_at)).map (fun r => (r.id, r.type)), s)

/-! ### Helper lemmas about the store operations -/

theorem getRow_filter_ne {δ : Type} (id : String) (s : Store δ) :
    getRow id (s.filter (fun r => r.id != id)) = none := by
  refine List.find?_eq_none.mpr ?_
  intro r hr
  have := (List.mem_filter.mp hr).2
  simpa using this

theorem purge_fst {δ : Type} (now : Nat) (s : Store δ) :
    (purgeExpired now s).1 =
      (s.filter (fun r => sqlExpired now r.expires_at)).map (fun r => (r.id, r.type)) := by
  unfold purgeExpired
  split <;> rfl

theorem purge_snd {δ : Type} (now : Nat) (s : Store δ) :
    (purgeExpired now s).2 = s.filter (fun r => !sqlExpired now r.expires_at) := by
  unfold purgeExpired
  split
  · rfl
  · next hlen =>
    have hnil : s.filter (fun r => sqlExpired now r.expires_at) = [] := by
      have hlen0 : ((s.filter (fun r => sqlExpired now r.expires_at)).map
          (fun r => (r.id, r.type))).length = 0 := by omega
      simpa using hlen0
    have hall : ∀ r ∈ s, ¬ (sqlExpired now r.expires_at = true) := by
      intro r hr hc
      have hmem : r ∈ s.filter (fun r => sqlExpired now r.expires_at) :=
        List.mem_filter.mpr ⟨hr, hc⟩
      rw [hnil] at hmem
      simp at hmem
    have : s.filter (fun r => !sqlExpired now r.expires_at) = s :=
      List.filter_eq_self.mpr (by
        intro a ha
        simp [hall a ha])
    simp [this]

theorem get_of_getRow_none {δ : Type} (now : Nat) {id : String} {s : Store δ}
    (h : getRow id s = none) : get now id s = (none, s) := by
  unfold get
  rw [h]

theorem get_of_getRow_live {δ : Type} (now : Nat) {id : String} {s : Store δ}
    {row : Row δ} (h : getRow id s = some row)
    (hlive : lazyExpired now row.expires_at = false) :
    get now id s = (some row, s) := by
  unfold get
  rw [h]
  simp [hlive]

theorem get_of_getRow_expired {δ : Type} (now : Nat) {id : String} {s : Store δ}
    {row : Row δ} (h : getRow id s = some row)
    (hexp : lazyExpired now row.expires_at = true) :
    get now id s = (none, s.filter (fun r => r.id != id)) := by
  unfold get
  rw [h]
  simp [hexp, remove]

theorem any_id_of_getRow {δ : Type} {id : String} {s : Store δ} {row : Row δ}
    (h : getRow id s = some row) : s.any (fun r => r.id == id) = true := by
  unfold getRow at h
  have hmem := List.mem_of_find?_eq_some h
  have hp := List.find?_some h
  exact List.any_eq_true.mpr ⟨row, hmem, hp⟩

/-- A concrete row with no expiry, for witnesses. -/
def rowNoExp : Row String := ⟨"a", "note", "d", 0, none⟩

/-- A concrete row with `expires_at = 0`, the JS-truthiness edge value. -/
def rowExpZero : Row String := ⟨"a", "note", "d", 0, some 0⟩

/-- A concrete row expiring at time 5. -/
def rowExpFive : Row String := ⟨"a", "note", "d", 0, some 5⟩

theorem purge_snd_mem {δ : Type} (now : Nat) (s : Store δ) (r : Row δ) :
    r ∈ (purgeExpired now s).2 ↔ r ∈ s ∧ sqlExpired now r.expires_at = false := by
  rw [purge_snd]
  simp [List.mem_filter]

/-! ### Claim theorems about the bare object store -/

/-- **C7.** `purgeExpired()` returns the `{id, type}` of exactly those rows
whose `expires_at` is non-null and strictly earlier than the invocation time,
deletes exactly those rows, and an immediate second call (same `now`, no
intervening writes) returns the empty list. -/
theorem C7_purgeExpired_exact_and_idempotent {δ : Type} (now : Nat) (s : Store δ) :
    (purgeExpired now s).1 =
      (s.filter (fun r => sqlExpired now r.expires_at)).map (fun r => (r.id, r.type))
    ∧ (purgeExpired now s).2 = s.filter (fun r => !sqlExpired now r.expires_at)
    ∧ (purgeExpired now (purgeExpired now s).2).1 = [] := by
  refine ⟨purge_fst now s, purge_snd now s, ?_⟩
  rw [purge_fst, purge_snd]
  have : (s.filter (fun r => !sqlExpired now r.expires_at)).filter
      (fun r => sqlExpired now r.expires_at) = [] := by
    refine List.filter_eq_nil_iff.mpr ?_
    intro r hr
    have := (List.mem_filter.mp hr).2
    simp at this
    simp [this]
  rw [this]
  rfl

/-- **C6.** `createWithId` on an id that already names a stored row fails with
a surfaced `Conflict` error, and the whole table — in particular the
pre-existing row with all its fields — is left unmodified. -/
theorem C6_createWithId_conflict {δ : Type} (id ty : String) (d : δ)
    (e : Option Nat) (now : Nat) (s : Store δ) (row : Row δ)
    (h : getRow id s = some row) :
    (createWithId id ty d e now s).1 = .error .conflict
    ∧ (createWithId id ty d e now s).2 = s
    ∧ getRow id (createWithId id ty d e now s).2 = some row := by
  unfold createWithId
  rw [if_pos (any_id_of_getRow h)]
  exact ⟨rfl, rfl, h⟩

/-- Witness for C6 at a concrete store. -/
theorem C6_witness :
    (createWithId "a" "poll" "p" none 7 [rowNoExp]).1 = .error .conflict
    ∧ (createWithId "a" "poll" "p" none 7 [rowNoExp]).2 = [rowNoExp] :=
  have h := C6_createWithId_conflict "a" "poll" "p" none 7 [rowNoExp] rowNoExp (by decide)
  ⟨h.1, h.2.1⟩

/-- **C1 (counterexample).** The claim says that a stored object whose
`expires_at` is non-null and strictly earlier than the current time is
deleted by `get` and never returned.  At the edge value `expires_at = 0`
(non-null and strictly earlier than `now = 1`) the lazy-expiration branch
`row.expires_at && row.expires_at < Date.now()` is falsy, so `get` returns
the object and deletes nothing. -/
theorem C1_counterexample :
    rowExpZero.expires_at = some 0 ∧ 0 < 1
    ∧ get 1 "a" [rowExpZero] = (some rowExpZero, [rowExpZero])
    ∧ (get 1 "a" [rowExpZero]).1 ≠ none := by
  refine ⟨rfl, Nat.zero_lt_one, by decide, by decide⟩

/-- **C1 (amended).** For a stored object found under `id`: if `expires_at`
is non-null, *nonzero*, and strictly earlier than the current time, `get`
deletes the row and returns absent; if `expires_at` is null, zero, or not in
the past, `get` returns the object and leaves the table unchanged. -/
theorem C1_get_lazy_expiration {δ : Type} (now : Nat) (id : String) (s : Store δ)
    (row : Row δ) (h : getRow id s = some row) :
    (∀ v, row.expires_at = some v → v ≠ 0 → v < now →
      (get now id s).1 = none
      ∧ (get now id s).2 = s.filter (fun r => r.id != id)
      ∧ getRow id (get now id s).2 = none)
    ∧ (∀ v, row.expires_at = some v → (v = 0 ∨ now ≤ v) → get now id s = (some row, s))
    ∧ (row.expires_at = none → get now id s = (some row, s)) := by
  refine ⟨?_, ?_, ?_⟩
  · intro v hv hv0 hvnow
    have hexp : lazyExpired now row.expires_at = true := by
      rw [hv]
      simp [lazyExpired, hv0, hvnow]
    have hget : get now id s = (none, s.filter (fun r => r.id != id)) := by
      simp [get, h, hexp, remove]
    rw [hget]
    exact ⟨rfl, rfl, getRow_filter_ne id s⟩
  · intro v hv hcase
    have hexp : lazyExpired now row.expires_at = false := by
      rw [hv]
      rcases hcase with h0 | hle
      · simp [lazyExpired, h0]
      · simp [lazyExpired]
        intro _
        omega
    simp [get, h, hexp]
  · intro hnone
    have hexp : lazyExpired now row.expires_at = false := by
      rw [hnone]; rfl
    simp [get, h, hexp]

/-- Witness for C1 (amended): a row expiring at 5 read at time 10 is deleted
and absent; the same row read at time 3 is returned unchanged. -/
theorem C1_witness :
    ((get 10 "a" [rowExpFive]).1 = none
      ∧ (get 10 "a" [rowExpFive]).2 = ([rowExpFive].filter (fun r => r.id != "a"))
      ∧ getRow "a" (get 10 "a" [rowExpFive]).2 = none)
    ∧ get 3 "a" [rowExpFive] = (some rowExpFive, [rowExpFive]) :=
  ⟨(C1_get_lazy_expiration 10 "a" [rowExpFive] rowExpFive (by decide)).1
      5 rfl (by decide) (by decide),
   (C1_get_lazy_expiration 3 "a" [rowExpFive] rowExpFive (by decide)).2.1
      5 rfl (Or.inr (by decide))⟩

/-- **C10.** For a stored object whose `expires_at` equals 0 (a timestamp in
the past once `now > 0`): the lazy path of `get` tests truthiness, so the
object is returned and not deleted, while `purgeExpired` (SQL
`expires_at IS NOT NULL AND expires_at < ?`) selects and deletes that very
row — the two expiration paths disagree on this edge value. -/
theorem C10_zero_expiry_disagreement {δ : Type} (now : Nat) (id : String)
    (s : Store δ) (row : Row δ) (h : getRow id s = some row)
    (h0 : row.expires_at = some 0) (hn : 0 < now) :
    get now id s = (some row, s)
    ∧ (row.id, row.type) ∈ (purgeExpired now s).1
    ∧ row ∉ (purgeExpired now s).2 := by
  have hmem : row ∈ s := by
    unfold getRow at h
    exact List.mem_of_find?_eq_some h
  have hsql : sqlExpired now row.expires_at = true := by
    rw [h0]
    simpa [sqlExpired] using hn
  have hexp : lazyExpired now row.expires_at = false := by
    rw [h0]
    simp [lazyExpired]
  refine ⟨by simp [get, h, hexp], ?_, ?_⟩
  · rw [purge_fst]
    exact List.mem_map_of_mem _ (List.mem_filter.mpr ⟨hmem, hsql⟩)
  · intro hcontra
    have := (purge_snd_mem now s row).mp hcontra
    rw [this.2] at hsql
    exact Bool.false_ne_true hsql

/-- Witness for C10: the row expiring at 0, at time 1. -/
theorem C10_witness :
    get 1 "a" [rowExpZero] = (some rowExpZero, [rowExpZero])
    ∧ (rowExpZero.id, rowExpZero.type) ∈ (purgeExpired 1 [rowExpZero]).1
    ∧ rowExpZero ∉ (purgeExpired 1 [rowExpZero]).2 :=
  C10_zero_expiry_disagreement 1 "a" [rowExpZero] rowExpZero (by decide) rfl
    Nat.zero_lt_one

/-- **C4 (counterexample).** The claim reads `create`'s third argument as a
relative ttl and asserts `expires_at = now + ttl`.  The source parameter is
the *absolute* timestamp `expiresAt`, persisted as given: calling at
`now = 100` with third argument `5` persists `expires_at = 5`, not `105`. -/
theorem C4_counterexample :
    getRow "x" (create "x" "note" "d" (some 5) 100 ([] : Store String)).2
      = some ⟨"x", "note", "d", 100, some 5⟩
    ∧ (some 5 : Option Nat) ≠ some (100 + 5) := by
  refine ⟨by decide, by decide⟩

/-- **C4 (amended).** `create(type, data, expiresAt)` at time `now` persists a
row carrying the freshly minted id, `created_at = now`, and `expires_at`
equal to the caller-supplied absolute timestamp as given — `null` when the
argument is absent — appended to the table. -/
theorem C4_create_persists {δ : Type} (freshId ty : String) (d : δ)
    (e : Option Nat) (now : Nat) (s : Store δ)
    (hfresh : ∀ r ∈ s, r.id ≠ freshId) :
    create freshId ty d e now s
      = (.ok ⟨freshId, ty, d, now, e⟩, s ++ [⟨freshId, ty, d, now, e⟩]) := by
  have hnone : ¬ (s.any (fun r => r.id == freshId) = true) := by
    intro hany
    obtain ⟨r, hr, hid⟩ := List.any_eq_true.mp hany
    exact hfresh r hr (by simpa using hid)
  unfold create createWithId
  rw [if_neg hnone]

/-- Witness for C4 (amended): creation into the empty table, with and
without an expiry. -/
theorem C4_witness :
    create "x" "note" "d" (some 5) 100 ([] : Store String)
      = (.ok ⟨"x", "note", "d", 100, some 5⟩, [⟨"x", "note", "d", 100, some 5⟩])
    ∧ create "y" "secret" "c" none 7 ([] : Store String)
      = (.ok ⟨"y", "secret", "c", 7, none⟩, [⟨"y", "secret", "c", 7, none⟩]) :=
  ⟨C4_create_persists "x" "note" "d" (some 5) 100 [] (by intro r hr; cases hr),
   C4_create_persists "y" "secret" "c" none 7 [] (by intro r hr; cases hr)⟩

/-! ### `update`: frame conditions (C9) -/

theorem getRow_map_setData {δ : Type} (id : String) (d : δ) (s : Store δ) :
    getRow id (s.map (fun r => if r.id == id then { r with data := d } else r))
      = (getRow id s).map (fun r => { r with data := d }) := by
  unfold getRow
  induction s with
  | nil => rfl
  | cons a s ih =>
    rw [List.map_cons]
    cases ha : a.id == id with
    | true =>
      rw [if_pos rfl]
      have hpa : ((({ a with data := d } : Row δ).id == id) = true) := ha
      rw [List.find?_cons_of_pos (p := fun r : Row δ => r.id == id) _ hpa,
        List.find?_cons_of_pos (p := fun r : Row δ => r.id == id) _ ha]
      rfl
    | false =>
      rw [if_neg (by simp)]
      rw [List.find?_cons_of_neg (p := fun r : Row δ => r.id == id) _ (by simp [ha]),
        List.find?_cons_of_neg (p := fun r : Row δ => r.id == id) _ (by simp [ha])]
      exact ih

theorem filter_map_setData {δ : Type} (id : String) (d : δ) (s : Store δ) :
    (s.map (fun r => if r.id == id then { r with data := d } else r)).filter
        (fun r => r.id != id)
      = s.filter (fun r => r.id != id) := by
  induction s with
  | nil => rfl
  | cons a s ih =>
    rw [List.map_cons]
    cases ha : a.id == id with
    | true =>
      rw [if_pos rfl]
      have hpa : ¬ (((fun r : Row δ => r.id != id) ({ a with data := d } : Row δ)) = true) := by
        simpa using ha
      have hpa2 : ¬ (((fun r : Row δ => r.id != id) a) = true) := by
        simpa using ha
      rw [List.filter_cons_of_neg (p := fun r : Row δ => r.id != id) hpa,
        List.filter_cons_of_neg (p := fun r : Row δ => r.id != id) hpa2]
      exact ih
    | false =>
      rw [if_neg (by simp)]
      have hpa : (((fun r : Row δ => r.id != id) a) = true) := by
        simpa using ha
      rw [List.filter_cons_of_pos (p := fun r : Row δ => r.id != id) hpa]
      rw [List.filter_cons_of_pos (p := fun r : Row δ => r.id != id) hpa]
      rw [ih]

/-- **C9 (counterexample).** The claim says `update` on every existing row
leaves `id`, `type`, `created_at` and `expires_at` unchanged.  On an
existing row that is already lazily expired (here `expires_at = 5` at
`now = 10`), the `UPDATE` statement rewrites `data`, and the re-read
`get(id)` then deletes the row: after the call the row is gone entirely. -/
theorem C9_counterexample :
    getRow "a" [rowExpFive] = some rowExpFive
    ∧ update 10 "a" "x" [rowExpFive] = (none, [])
    ∧ getRow "a" (update 10 "a" "x" [rowExpFive]).2 = none := by
  refine ⟨by decide, by decide, by decide⟩

/-- **C9 (amended).** For an existing row that is not lazily expired at call
time, `update(id, newData)` replaces only the `data` field — of that row and
of nothing else — leaving `id`, `type`, `created_at`, `expires_at` and every
other row unchanged; for an id with no stored row it returns absent and
changes nothing; for an existing row that is lazily expired it returns
absent and the row is deleted (its `data` having been transiently
rewritten before the lazy-expiring re-read). -/
theorem C9_update_frame {δ : Type} (now : Nat) (id : String) (d : δ) (s : Store δ) :
    ((∀ r ∈ s, r.id ≠ id) → update now id d s = (none, s))
    ∧ (∀ row, getRow id s = some row → lazyExpired now row.expires_at = false →
        update now id d s = (some { row with data := d },
          s.map (fun r => if r.id == id then { r with data := d } else r)))
    ∧ (∀ row, getRow id s = some row → lazyExpired now row.expires_at = true →
        update now id d s = (none, s.filter (fun r => r.id != id))) := by
  refine ⟨?_, ?_, ?_⟩
  · intro habs
    have hnone : ¬ (s.any (fun r => r.id == id) = true) := by
      intro hany
      obtain ⟨r, hr, hid⟩ := List.any_eq_true.mp hany
      exact habs r hr (by simpa using hid)
    unfold update
    rw [if_neg hnone]
  · intro row hrow hlive
    have hrow2 : getRow id (s.map (fun r => if r.id == id then { r with data := d } else r))
        = some { row with data := d } := by
      rw [getRow_map_setData, hrow]
      rfl
    have hlive2 : lazyExpired now ({ row with data := d } : Row δ).expires_at = false := hlive
    unfold update
    rw [if_pos (any_id_of_getRow hrow)]
    exact get_of_getRow_live now hrow2 hlive2
  · intro row hrow hexp
    have hrow2 : getRow id (s.map (fun r => if r.id == id then { r with data := d } else r))
        = some { row with data := d } := by
      rw [getRow_map_setData, hrow]
      rfl
    have hexp2 : lazyExpired now ({ row with data := d } : Row δ).expires_at = true := hexp
    unfold update
    rw [if_pos (any_id_of_getRow hrow)]
    rw [get_of_getRow_expired now hrow2 hexp2]
    rw [filter_map_setData]

/-- Witness for C9 (amended): live update at time 3 on the row expiring at 5
replaces only `data`; update on an absent id is a no-op. -/
theorem C9_witness :
    update 3 "a" "x" [rowExpFive]
      = (some ⟨"a", "note", "x", 0, some 5⟩, [⟨"a", "note", "x", 0, some 5⟩])
    ∧ update 3 "zz" "x" [rowExpFive] = (none, [rowExpFive]) := by
  constructor
  · have h := (C9_update_frame 3 "a" "x" [rowExpFive]).2.1 rowExpFive (by decide) (by decide)
    rw [h]
    decide
  · exact (C9_update_frame 3 "zz" "x" [rowExpFive]).1 (by decide)

/-! ### One-time secrets: `GET /secrets/:id` (server/index.ts) -/

/-- The `GET /secrets/:id` handler: read the object through the store's
lazy-expiring `get`; when absent, render the gone page (absent result); when
present, take the ciphertext payload, *then* delete the row, and reveal. -/
def secretGet {δ : Type} (now : Nat) (id : String) (s : Store δ) :
    Option δ × Store δ :=
  match get now id s with
  | (none, s1) => (none, s1)
  | (some row, s1) => (some row.data, (remove id s1).2)

/-- A sequence of `GET /secrets/:id` requests for the same id, at the given
times, each running against the store the previous one left behind. -/
def secretReads {δ : Type} (times : List Nat) (id : String) (s : Store δ) :
    List (Option δ) × Store δ :=
  match times with
  | [] => ([], s)
  | t :: ts =>
    ((secretGet t id s).1 :: (secretReads ts id (secretGet t id s).2).1,
     (secretReads ts id (secretGet t id s).2).2)

theorem secretGet_absent {δ : Type} (t : Nat) {id : String} {s : Store δ}
    (h : getRow id s = none) : secretGet t id s = (none, s) := by
  unfold secretGet
  rw [get_of_getRow_none t h]

theorem getRow_secretGet {δ : Type} (t : Nat) (id : String) (s : Store δ) :
    getRow id (secretGet t id s).2 = none := by
  cases hrow : getRow id s with
  | none =>
    rw [secretGet_absent t hrow]
    exact hrow
  | some row =>
    cases hexp : lazyExpired t row.expires_at with
    | true =>
      unfold secretGet
      rw [get_of_getRow_expired t hrow hexp]
      exact getRow_filter_ne id s
    | false =>
      unfold secretGet
      rw [get_of_getRow_live t hrow hexp]
      exact getRow_filter_ne id s

theorem secretReads_absent {δ : Type} (times : List Nat) {id : String}
    {s : Store δ} (h : getRow id s = none) :
    secretReads times id s = (times.map (fun _ => none), s) := by
  induction times with
  | nil => rfl
  | cons t ts ih =>
    unfold secretReads
    rw [secretGet_absent t h, ih]
    rfl

/-- **C2.** For a stored secret (found under its id and not lazily expired at
the first read): the first `GET /secrets/:id` returns the ciphertext payload
and deletes the object, every later read of the same id returns absent
regardless of its time, and in the whole sequence at most one read reveals
the ciphertext. -/
theorem C2_secret_one_time_reveal {δ : Type} (t : Nat) (ts : List Nat)
    (id : String) (s : Store δ) (row : Row δ) (h : getRow id s = some row)
    (hlive : lazyExpired t row.expires_at = false) :
    (secretReads (t :: ts) id s).1 = some row.data :: ts.map (fun _ => none)
    ∧ getRow id (secretReads (t :: ts) id s).2 = none
    ∧ (secretReads (t :: ts) id s).1.countP Option.isSome ≤ 1 := by
  have hfirst : secretGet t id s = (some row.data, s.filter (fun r => r.id != id)) := by
    unfold secretGet
    rw [get_of_getRow_live t h hlive]
    rfl
  have habsent : getRow id (s.filter (fun r => r.id != id)) = none :=
    getRow_filter_ne id s
  have hrest := secretReads_absent ts habsent
  have hseq : secretReads (t :: ts) id s
      = (some row.data :: ts.map (fun _ => none), s.filter (fun r => r.id != id)) := by
    unfold secretReads
    rw [hfirst, hrest]
  refine ⟨by rw [hseq], by rw [hseq]; exact habsent, ?_⟩
  rw [hseq]
  have hzero : (ts.map (fun _ => (none : Option δ))).countP Option.isSome = 0 := by
    simp [List.countP_map, Function.comp]
  simp [List.countP_cons, hzero]

/-- Witness for C2: one stored secret, three reads at times 5, 6, 7. -/
theorem C2_witness :
    (secretReads [5, 6, 7] "a" [rowNoExp]).1 = [some "d", none, none]
    ∧ getRow "a" (secretReads [5, 6, 7] "a" [rowNoExp]).2 = none
    ∧ (secretReads [5, 6, 7] "a" [rowNoExp]).1.countP Option.isSome ≤ 1 :=
  C2_secret_one_time_reveal 5 [6, 7] "a" [rowNoExp] rowNoExp (by decide) rfl

/-! ### Potluck lists: capacity accounting (server/index.ts, `/b/:id/claim`) -/

/-- A claim against a need-line: `{name, amount, token}` (token minted with
`crypto.randomBytes(8).toString('base64url')` at claim time). -/
structure BClaim where
  name : String
  amount : Int
  token : String
deriving Repr, DecidableEq

/-- A potluck need-line: `{item, amount_needed, claims[]}`. -/
structure NeedLine where
  item : String
  amount_needed : Int
  claims : List BClaim
deriving Repr, DecidableEq

/-- `claims.reduce((sum, c) => sum + c.amount, 0)`. -/
def sumClaims (cs : List BClaim) : Int := (cs.map (fun c => c.amount)).sum

/-- Outcome of a potluck mutation, as rendered by the handlers. -/
inductive BOutcome where
  | invalidInput
  | rejected (remaining : Int)
  | forbidden
  | accepted (token : String)
  | deleted
deriving Repr, DecidableEq

/-- `POST /b/:id/claim/:idx`, at the level of the bringlist `data.needed`
payload (name and amount already parsed from the form body, `tok` the fresh
claim token): reject empty names and amounts below 1, reject out-of-range
item indices, then accept only when the requested amount does not exceed
`amount_needed - sum(existing claims)`; a rejection reports the remaining
quantity. -/
def claimItem (needed : List NeedLine) (index : Int) (name : String)
    (amount : Int) (tok : String) : BOutcome × List NeedLine :=
  if name = "" ∨ amount < 1 then (.invalidInput, needed)
  else if index < 0 ∨ (needed.length : Int) ≤ index then (.invalidInput, needed)
  else match needed[index.toNat]? with
  | none => (.invalidInput, needed)
  | some item =>
    if item.amount_needed - sumClaims item.claims < amount then
      (.rejected (item.amount_needed - sumClaims item.claims), needed)
    else
      (.accepted tok,
        needed.set index.toNat
          { item with claims := item.claims ++ [⟨name, amount, tok⟩] })

/-- `DELETE /b/:id/claim/:idx/:claimIdx`: bounds-check item and claim
indices, then delete only when the supplied token is nonempty and equals the
claim's stored token. -/
def deleteClaim (needed : List NeedLine) (index claimIndex : Int)
    (tok : String) : BOutcome × List NeedLine :=
  if index < 0 ∨ (needed.length : Int) ≤ index then (.invalidInput, needed)
  else match needed[index.toNat]? with
  | none => (.invalidInput, needed)
  | some item =>
    if claimIndex < 0 ∨ (item.claims.length : Int) ≤ claimIndex then
      (.invalidInput, needed)
    else match item.claims[claimIndex.toNat]? with
    | none => (.invalidInput, needed)
    | some c =>
      if tok = "" ∨ c.token ≠ tok then (.forbidden, needed)
      else (.deleted,
        needed.set index.toNat
          { item with claims := item.claims.eraseIdx claimIndex.toNat })

/-- A potluck mutation request. -/
inductive BOp where
  | claim (index : Int) (name : String) (amount : Int) (tok : String)
  | delClaim (index claimIndex : Int) (tok : String)

def applyBOp (needed : List NeedLine) : BOp → BOutcome × List NeedLine
  | .claim i n a t => claimItem needed i n a t
  | .delClaim i j t => deleteClaim needed i j t

/-- Run a sequence of claim attempts and claim deletions, each against the
state the previous one persisted. -/
def runBOps (ops : List BOp) (needed : List NeedLine) : List NeedLine :=
  match ops with
  | [] => needed
  | op :: rest => runBOps rest (applyBOp needed op).2

/-- The per-line invariant maintained by the handlers: every stored claim
has amount at least 1, and a line that has any claims respects capacity. -/
def LineInv (l : NeedLine) : Prop :=
  (∀ c ∈ l.claims, 1 ≤ c.amount)
  ∧ (l.claims ≠ [] → sumClaims l.claims ≤ l.amount_needed)

def StoreInv (needed : List NeedLine) : Prop := ∀ l ∈ needed, LineInv l

theorem sumClaims_append (cs : List BClaim) (c : BClaim) :
    sumClaims (cs ++ [c]) = sumClaims cs + c.amount := by
  simp [sumClaims]

theorem sumClaims_eraseIdx (cs : List BClaim) (j : Nat) (c : BClaim)
    (h : cs[j]? = some c) :
    sumClaims (cs.eraseIdx j) = sumClaims cs - c.amount := by
  induction cs generalizing j with
  | nil => simp at h
  | cons a cs ih =>
    cases j with
    | zero =>
      simp at h
      subst h
      simp [List.eraseIdx, sumClaims]
    | succ j =>
      have h' : cs[j]? = some c := by simpa using h
      simp only [List.eraseIdx]
      have : sumClaims (a :: cs.eraseIdx j) = a.amount + sumClaims (cs.eraseIdx j) := by
        simp [sumClaims]
      rw [this, ih j h']
      simp [sumClaims]
      ring

theorem claimItem_accepted {needed : List NeedLine} {i : Int} {n : String}
    {a : Int} {t t' : String} {s' : List NeedLine}
    (h : claimItem needed i n a t = (.accepted t', s')) :
    1 ≤ a ∧ ∃ item, needed[i.toNat]? = some item
      ∧ a ≤ item.amount_needed - sumClaims item.claims
      ∧ t' = t
      ∧ s' = needed.set i.toNat
          { item with claims := item.claims ++ [⟨n, a, t⟩] } := by
  unfold claimItem at h
  split at h
  · simp at h
  · next hname =>
    split at h
    · simp at h
    · split at h
      · simp at h
      · next item hitem =>
        split at h
        · simp at h
        · next hcap =>
          simp only [Prod.mk.injEq] at h
          obtain ⟨h1, h2⟩ := h
          have ht : t' = t := by
            cases h1
            rfl
          push_neg at hname hcap
          exact ⟨by omega, item, hitem, by omega, ht, h2.symm⟩

theorem claimItem_rejected {needed : List NeedLine} {i : Int} {n : String}
    {a rem : Int} {t : String} {s' : List NeedLine}
    (h : claimItem needed i n a t = (.rejected rem, s')) :
    ∃ item, needed[i.toNat]? = some item
      ∧ rem = item.amount_needed - sumClaims item.claims
      ∧ rem < a ∧ s' = needed := by
  unfold claimItem at h
  split at h
  · simp at h
  · split at h
    · simp at h
    · split at h
      · simp at h
      · next item hitem =>
        split at h
        · next hcap =>
          simp only [Prod.mk.injEq] at h
          obtain ⟨h1, h2⟩ := h
          have hr : rem = item.amount_needed - sumClaims item.claims := by
            cases h1
            rfl
          exact ⟨item, hitem, hr, by omega, h2.symm⟩
        · simp at h

theorem deleteClaim_deleted {needed : List NeedLine} {i j : Int} {t : String}
    {s' : List NeedLine}
    (h : deleteClaim needed i j t = (.deleted, s')) :
    ∃ item c, needed[i.toNat]? = some item
      ∧ item.claims[j.toNat]? = some c ∧ c.token = t
      ∧ s' = needed.set i.toNat
          { item with claims := item.claims.eraseIdx j.toNat } := by
  unfold deleteClaim at h
  split at h
  · simp at h
  · split at h
    · simp at h
    · next item hitem =>
      split at h
      · simp at h
      · split at h
        · simp at h
        · next c hc =>
          split at h
          · simp at h
          · next htok =>
            simp only [Prod.mk.injEq] at h
            push_neg at htok
            exact ⟨item, c, hitem, hc, htok.2, h.2.symm⟩

theorem claimItem_inv {needed : List NeedLine} (hinv : StoreInv needed)
    (i : Int) (n : String) (a : Int) (t : String) :
    StoreInv (claimItem needed i n a t).2 := by
  unfold claimItem
  split
  · exact hinv
  · next hname =>
    split
    · exact hinv
    · split
      · exact hinv
      · next item hitem =>
        split
        · exact hinv
        · next hcap =>
          intro l hl
          rcases List.mem_or_eq_of_mem_set hl with hmem | rfl
          · exact hinv l hmem
          · have hmemitem : item ∈ needed := List.getElem?_mem hitem
            have hitem_inv := hinv item hmemitem
            push_neg at hname hcap
            constructor
            · intro c hc
              rcases List.mem_append.mp hc with hcl | hcr
              · exact hitem_inv.1 c hcl
              · have : c = ⟨n, a, t⟩ := by simpa using hcr
                subst this
                show (1 : Int) ≤ a
                omega
            · intro _
              show sumClaims (item.claims ++ [⟨n, a, t⟩]) ≤ item.amount_needed
              rw [sumClaims_append]
              show sumClaims item.claims + a ≤ item.amount_needed
              omega

theorem deleteClaim_inv {needed : List NeedLine} (hinv : StoreInv needed)
    (i j : Int) (t : String) :
    StoreInv (deleteClaim needed i j t).2 := by
  unfold deleteClaim
  split
  · exact hinv
  · split
    · exact hinv
    · next item hitem =>
      split
      · exact hinv
      · split
        · exact hinv
        · next c hc =>
          split
          · exact hinv
          · intro l hl
            rcases List.mem_or_eq_of_mem_set hl with hmem | rfl
            · exact hinv l hmem
            · have hmemitem : item ∈ needed := List.getElem?_mem hitem
              have hitem_inv := hinv item hmemitem
              have hcmem : c ∈ item.claims := List.getElem?_mem hc
              have hcamt : 1 ≤ c.amount := hitem_inv.1 c hcmem
              have hnonempty : item.claims ≠ [] := by
                intro hnil
                rw [hnil] at hcmem
                cases hcmem
              have hsum : sumClaims item.claims ≤ item.amount_needed :=
                hitem_inv.2 hnonempty
              constructor
              · intro c' hc'
                exact hitem_inv.1 c' ((List.eraseIdx_sublist _ _).mem hc')
              · intro _
                show sumClaims (item.claims.eraseIdx j.toNat) ≤ item.amount_needed
                rw [sumClaims_eraseIdx _ _ _ hc]
                omega

theorem applyBOp_inv {needed : List NeedLine} (hinv : StoreInv needed)
    (op : BOp) : StoreInv (applyBOp needed op).2 := by
  cases op with
  | claim i n a t => exact claimItem_inv hinv i n a t
  | delClaim i j t => exact deleteClaim_inv hinv i j t

theorem runBOps_inv {needed : List NeedLine} (hinv : StoreInv needed)
    (ops : List BOp) : StoreInv (runBOps ops needed) := by
  induction ops generalizing needed with
  | nil => exact hinv
  | cons op rest ih => exact ih (applyBOp_inv hinv op)

/-- **C3.** Starting from freshly created need-lines (empty claim ledgers),
after any sequence of claim attempts and claim deletions: every persisted
line with claims respects `sum(claims.amount) ≤ amount_needed`; a claim is
accepted only when the requested amount is at most
`amount_needed - sum(existing claims)`, and the line it persists still
respects capacity; a rejected claim reports the actual remaining quantity
and persists nothing; and a successful claim deletion also leaves the
target line within capacity. -/
theorem C3_potluck_capacity (ops : List BOp) (needed₀ : List NeedLine)
    (hzero : ∀ l ∈ needed₀, l.claims = []) :
    StoreInv (runBOps ops needed₀)
    ∧ (∀ i n a t t' s',
        claimItem (runBOps ops needed₀) i n a t = (.accepted t', s') →
          (∃ item, (runBOps ops needed₀)[i.toNat]? = some item
            ∧ a ≤ item.amount_needed - sumClaims item.claims)
          ∧ ∀ item', s'[i.toNat]? = some item' →
              sumClaims item'.claims ≤ item'.amount_needed)
    ∧ (∀ i n a t rem s',
        claimItem (runBOps ops needed₀) i n a t = (.rejected rem, s') →
          ∃ item, (runBOps ops needed₀)[i.toNat]? = some item
            ∧ rem = item.amount_needed - sumClaims item.claims
            ∧ s' = runBOps ops needed₀)
    ∧ (∀ i j t s',
        deleteClaim (runBOps ops needed₀) i j t = (.deleted, s') →
          ∀ item', s'[i.toNat]? = some item' →
            sumClaims item'.claims ≤ item'.amount_needed) := by
  have hinv0 : StoreInv needed₀ := by
    intro l hl
    constructor
    · intro c hc
      rw [hzero l hl] at hc
      cases hc
    · intro hne
      exact absurd (hzero l hl) hne
  have hinv : StoreInv (runBOps ops needed₀) := runBOps_inv hinv0 ops
  refine ⟨hinv, ?_, ?_, ?_⟩
  · intro i n a t t' s' h
    obtain ⟨ha, item, hitem, hcap, ht, hs⟩ := claimItem_accepted h
    refine ⟨⟨item, hitem, hcap⟩, ?_⟩
    intro item' hitem'
    obtain ⟨hlt, -⟩ := List.getElem?_eq_some.mp hitem
    have hset : s'[i.toNat]?
        = some { item with claims := item.claims ++ [⟨n, a, t⟩] } := by
      rw [hs]
      exact List.getElem?_set_self hlt
    rw [hset] at hitem'
    cases hitem'
    show sumClaims (item.claims ++ [⟨n, a, t⟩]) ≤ item.amount_needed
    rw [sumClaims_append]
    show sumClaims item.claims + a ≤ item.amount_needed
    omega
  · intro i n a t rem s' h
    obtain ⟨item, hitem, hrem, -, hs⟩ := claimItem_rejected h
    exact ⟨item, hitem, hrem, hs⟩
  · intro i j t s' h
    obtain ⟨item, c, hitem, hc, -, hs⟩ := deleteClaim_deleted h
    intro item' hitem'
    obtain ⟨hlt, -⟩ := List.getElem?_eq_some.mp hitem
    have hset : s'[i.toNat]?
        = some { item with claims := item.claims.eraseIdx j.toNat } := by
      rw [hs]
      exact List.getElem?_set_self hlt
    rw [hset] at hitem'
    cases hitem'
    have hmemitem : item ∈ runBOps ops needed₀ := List.getElem?_mem hitem
    have hitem_inv := hinv item hmemitem
    have hcmem : c ∈ item.claims := List.getElem?_mem hc
    have hcamt : 1 ≤ c.amount := hitem_inv.1 c hcmem
    have hnonempty : item.claims ≠ [] := by
      intro hnil
      rw [hnil] at hcmem
      cases hcmem
    have hsum : sumClaims item.claims ≤ item.amount_needed :=
      hitem_inv.2 hnonempty
    show sumClaims (item.claims.eraseIdx j.toNat) ≤ item.amount_needed
    rw [sumClaims_eraseIdx _ _ _ hc]
    omega

/-- Witness for C3: one need-line for 3 cakes, "bob" claims 2, then a
further claim of 1 by "ann" is accepted and the persisted line holds
claims summing to 3 ≤ 3. -/
theorem C3_witness :
    (∃ item,
        (runBOps [BOp.claim 0 "bob" 2 "t1"]
          [⟨"cake", 3, []⟩])[(0 : Int).toNat]? = some item
        ∧ (1 : Int) ≤ item.amount_needed - sumClaims item.claims)
    ∧ ∀ item',
        ([⟨"cake", 3, [⟨"bob", 2, "t1"⟩, ⟨"ann", 1, "t2"⟩]⟩] :
          List NeedLine)[(0 : Int).toNat]? = some item' →
          sumClaims item'.claims ≤ item'.amount_needed :=
  (C3_potluck_capacity [.claim 0 "bob" 2 "t1"] [⟨"cake", 3, []⟩]
      (by decide)).2.1
    0 "ann" 1 "t2" "t2" [⟨"cake", 3, [⟨"bob", 2, "t1"⟩, ⟨"ann", 1, "t2"⟩]⟩]
    (by decide)

/-! ### Token-gated mutations (C8): expense entries and potluck custom items -/

/-- An expense participant: `{name, token}`. -/
structure Participant where
  name : String
  token : String
deriving Repr, DecidableEq

/-- An expense entry: `{description, amount, paid_by, split_between}`. -/
structure ExEntry where
  description : String
  amount : ℚ
  paid_by : String
  split_between : List String
deriving Repr, DecidableEq

/-- The `data` payload of an `expense` object. -/
structure ExpenseData where
  title : String
  currency : String
  participants : List Participant
  entries : List ExEntry
deriving Repr, DecidableEq

/-- A potluck custom item: `{name, item, amount, token}`. -/
structure CustomItem where
  name : String
  item : String
  amount : Int
  token : String
deriving Repr, DecidableEq

/-- The `data` payload of a `bringlist` object. -/
structure BringData where
  title : String
  needed : List NeedLine
  custom : List CustomItem
deriving Repr, DecidableEq

/-- The union of payload shapes stored in the shared `objects` table. -/
inductive Payload where
  | note (text : String)
  | secret (ciphertext : String)
  | expense (d : ExpenseData)
  | bringlist (d : BringData)
deriving Repr, DecidableEq

/-- Semantic outcome of a handler: which branch answered the request.
`serverError` models the crash of an unchecked cast applied to a payload of
the wrong shape (unreachable when type tags match payload shapes). -/
inductive HOutcome where
  | notFound
  | forbidden
  | invalidInput
  | ok
  | serverError
deriving Repr, DecidableEq

/-- `POST /e/:id/entries`: fetch through `get`; a missing object or one whose
`type` is not `expense` answers not-found; then the query token must equal
some participant's stored token, else 403; then the form fields are
validated; finally the entry is appended and persisted via `update`. -/
def addEntry (now : Nat) (id token description : String) (amount : ℚ)
    (split_between : List String) (s : Store Payload) :
    HOutcome × Store Payload :=
  match get now id s with
  | (none, s1) => (.notFound, s1)
  | (some row, s1) =>
    if row.type ≠ "expense" then (.notFound, s1)
    else match row.data with
      | .expense d =>
        match d.participants.find? (fun p => p.token == token) with
        | none => (.forbidden, s1)
        | some participant =>
          if description = "" then (.invalidInput, s1)
          else if amount ≤ 0 then (.invalidInput, s1)
          else if split_between = [] then (.invalidInput, s1)
          else (.ok, (update now id (.expense { d with entries :=
              d.entries ++ [⟨description, amount, participant.name, split_between⟩] }) s1).2)
      | _ => (.serverError, s1)

/-- `DELETE /b/:id/custom/:customIdx`: fetch through `get`; a missing object
or one whose `type` is not `bringlist` answers 404; an out-of-range index
answers 400; then the query token must be nonempty and equal the custom
item's stored token, else 403; finally the item is spliced out and
persisted via `update`. -/
def deleteCustom (now : Nat) (id : String) (customIdx : Int) (token : String)
    (s : Store Payload) : HOutcome × Store Payload :=
  match get now id s with
  | (none, s1) => (.notFound, s1)
  | (some row, s1) =>
    if row.type ≠ "bringlist" then (.notFound, s1)
    else match row.data with
      | .bringlist d =>
        if customIdx < 0 ∨ (d.custom.length : Int) ≤ customIdx then
          (.invalidInput, s1)
        else match d.custom[customIdx.toNat]? with
        | none => (.invalidInput, s1)
        | some ci =>
          if token = "" ∨ ci.token ≠ token then (.forbidden, s1)
          else
            (.ok,
             (update now id
               (.bringlist { d with custom := d.custom.eraseIdx customIdx.toNat })
               s1).2)
      | _ => (.serverError, s1)

theorem addEntry_forbidden {now : Nat} {id token : String}
    (description : String) (amount : ℚ) (split_between : List String)
    {s s1 : Store Payload} {row : Row Payload} {d : ExpenseData}
    (hg : get now id s = (some row, s1)) (hty : row.type = "expense")
    (hdata : row.data = .expense d)
    (htok : ∀ p ∈ d.participants, p.token ≠ token) :
    addEntry now id token description amount split_between s = (.forbidden, s1) := by
  have hfind : d.participants.find? (fun p => p.token == token) = none := by
    refine List.find?_eq_none.mpr ?_
    intro p hp
    simpa using htok p hp
  unfold addEntry
  simp only [hg]
  rw [if_neg (by simp [hty])]
  simp only [hdata, hfind]

theorem addEntry_notFound_iff (now : Nat) (id token description : String)
    (amount : ℚ) (split_between : List String) (s : Store Payload) :
    (addEntry now id token description amount split_between s).1 = .notFound
      ↔ (∀ row, (get now id s).1 = some row → row.type ≠ "expense") := by
  unfold addEntry
  cases hg : get now id s with
  | mk o s1 =>
    cases o with
    | none => simp
    | some row =>
      by_cases hty : row.type = "expense"
      · cases hdata : row.data with
        | expense d =>
          cases hfind : d.participants.find? (fun p => p.token == token) with
          | none => simp [hty, hdata, hfind]
          | some participant =>
            by_cases hd : description = ""
            · simp [hty, hdata, hfind, hd]
            · by_cases ham : amount ≤ 0
              · simp [hty, hdata, hfind, hd, ham]
              · by_cases hsb : split_between = []
                · simp [hty, hdata, hfind, hd, ham, hsb]
                · simp [hty, hdata, hfind, hd, ham, hsb]
        | note t => simp [hty, hdata]
        | secret t => simp [hty, hdata]
        | bringlist d => simp [hty, hdata]
      · simp [hty]

theorem deleteCustom_forbidden {now : Nat} {id : String} {customIdx : Int}
    {token : String} {s s1 : Store Payload} {row : Row Payload}
    {d : BringData} {ci : CustomItem}
    (hg : get now id s = (some row, s1)) (hty : row.type = "bringlist")
    (hdata : row.data = .bringlist d) (h0 : 0 ≤ customIdx)
    (hidx : d.custom[customIdx.toNat]? = some ci) (htok : ci.token ≠ token) :
    deleteCustom now id customIdx token s = (.forbidden, s1) := by
  obtain ⟨hlt, -⟩ := List.getElem?_eq_some.mp hidx
  unfold deleteCustom
  simp only [hg]
  rw [if_neg (by simp [hty])]
  simp only [hdata]
  rw [if_neg (by omega)]
  simp only [hidx]
  rw [if_pos (Or.inr htok)]

theorem deleteCustom_notFound_iff (now : Nat) (id : String) (customIdx : Int)
    (token : String) (s : Store Payload) :
    (deleteCustom now id customIdx token s).1 = .notFound
      ↔ (∀ row, (get now id s).1 = some row → row.type ≠ "bringlist") := by
  unfold deleteCustom
  cases hg : get now id s with
  | mk o s1 =>
    cases o with
    | none => simp
    | some row =>
      by_cases hty : row.type = "bringlist"
      · cases hdata : row.data with
        | bringlist d =>
          by_cases hb : customIdx < 0 ∨ (d.custom.length : Int) ≤ customIdx
          · simp [hty, hdata, hb]
          · cases hidx : d.custom[customIdx.toNat]? with
            | none => simp [hty, hdata, hb, hidx]
            | some ci =>
              by_cases htk : token = "" ∨ ci.token ≠ token
              · simp [hty, hdata, hb, hidx, htk]
              · simp [hty, hdata, hb, hidx, htk]
        | note t => simp [hty, hdata]
        | secret t => simp [hty, hdata]
        | expense d => simp [hty, hdata]
      · simp [hty]

/-- A note object stored under id "x": exists, never expires. -/
def noteRow : Row Payload := ⟨"x", "note", .note "hi", 0, none⟩

/-- **C8 (counterexample).** The claim says NotFound is returned only when
the id is absent or expired.  Presenting an existing, unexpired object of a
*different type* (a note) to the token-gated expense route answers
not-found, refuting the claim as stated. -/
theorem C8_counterexample :
    getRow "x" [noteRow] = some noteRow
    ∧ noteRow.expires_at = none
    ∧ (addEntry 1 "x" "tok" "dinner" 1 ["A"] [noteRow]).1 = .notFound := by
  refine ⟨by decide, rfl, ?_⟩
  have hg : get 1 "x" [noteRow] = (some noteRow, [noteRow]) :=
    get_of_getRow_live 1 (by decide) rfl
  unfold addEntry
  simp only [hg]
  rw [if_pos (by decide)]

/-- **C8 (amended).** For the token-gated mutations `POST /e/:id/entries`
and `DELETE /b/:id/custom/:customIdx`: when the object exists with the
route's own type and the caller-supplied token does not equal the stored
token of the targeted sub-resource (in particular a token minted for a
different expense), the outcome is Forbidden, never NotFound; and NotFound
is answered exactly when `get` observes no object (id absent or lazily
expired) or the stored object's type differs from the route's type. -/
theorem C8_token_forbidden_vs_notfound (now : Nat) (id token description : String)
    (amount : ℚ) (split_between : List String) (customIdx : Int)
    (s : Store Payload) :
    (∀ s1 row d, get now id s = (some row, s1) → row.type = "expense" →
      row.data = .expense d → (∀ p ∈ d.participants, p.token ≠ token) →
      addEntry now id token description amount split_between s = (.forbidden, s1))
    ∧ ((addEntry now id token description amount split_between s).1 = .notFound
        ↔ (∀ row, (get now id s).1 = some row → row.type ≠ "expense"))
    ∧ (∀ s1 row d ci, get now id s = (some row, s1) → row.type = "bringlist" →
      row.data = .bringlist d → 0 ≤ customIdx →
      d.custom[customIdx.toNat]? = some ci → ci.token ≠ token →
      deleteCustom now id customIdx token s = (.forbidden, s1))
    ∧ ((deleteCustom now id customIdx token s).1 = .notFound
        ↔ (∀ row, (get now id s).1 = some row → row.type ≠ "bringlist")) := by
  refine ⟨?_, addEntry_notFound_iff now id token description amount split_between s,
    ?_, deleteCustom_notFound_iff now id customIdx token s⟩
  · intro s1 row d hg hty hdata htok
    exact addEntry_forbidden description amount split_between hg hty hdata htok
  · intro s1 row d ci hg hty hdata h0 hidx htok
    exact deleteCustom_forbidden hg hty hdata h0 hidx htok

/-- An expense object whose single participant "ann" holds token "tA". -/
def expRow : Row Payload :=
  ⟨"e1", "expense", .expense ⟨"trip", "€", [⟨"ann", "tA"⟩], []⟩, 0, none⟩

/-- A bringlist object with one custom item owned by token "tC". -/
def bringRow : Row Payload :=
  ⟨"b1", "bringlist", .bringlist ⟨"party", [], [⟨"bob", "chips", 1, "tC"⟩]⟩, 0, none⟩

/-- Witness for C8 (amended): a token from a different expense ("tB") is
rejected with Forbidden by the expense route, and a wrong token is rejected
with Forbidden by the custom-item route. -/
theorem C8_witness :
    addEntry 1 "e1" "tB" "dinner" 1 ["ann"] [expRow]
      = (.forbidden, [expRow])
    ∧ deleteCustom 1 "b1" 0 "tB" [bringRow] = (.forbidden, [bringRow]) :=
  have h1 := (C8_token_forbidden_vs_notfound 1 "e1" "tB" "dinner" 1 ["ann"] 0
    [expRow]).1 [expRow] expRow ⟨"trip", "€", [⟨"ann", "tA"⟩], []⟩
    (get_of_getRow_live 1 (by decide) rfl) rfl rfl (by decide)
  have h2 := (C8_token_forbidden_vs_notfound 1 "b1" "tB" "dinner" 1 ["ann"] 0
    [bringRow]).2.2.1 [bringRow] bringRow ⟨"party", [], [⟨"bob", "chips", 1, "tC"⟩]⟩
    ⟨"bob", "chips", 1, "tC"⟩
    (get_of_getRow_live 1 (by decide) rfl) rfl rfl (by decide) (by decide) (by decide)
  ⟨h1, h2⟩

/-! ### Settlement calculator (C5)

Modelled from the spec: the settlement calculation is rendered by the
expense view templates (`views/expenses/*.ejs`), which are not among the
source files under inspection; the definitions below follow §4.5 of the
spec verbatim over exact rationals. -/

/-- Modelled from the spec: total paid by `p` — the sum of `amount` over
entries where `p` is `paid_by`. -/
def paidTotal (entries : List ExEntry) (p : String) : ℚ :=
  ((entries.filter (fun e => e.paid_by == p)).map (fun e => e.amount)).sum

/-- Modelled from the spec: each participant in an entry's `split_between`
owes `amount / |split_between|` to `paid_by`. -/
def owedShare (e : ExEntry) : ℚ := e.amount / (e.split_between.length : ℚ)

/-- Modelled from the spec: total owed by `p` across all entries whose
`split_between` contains `p` (including their own entries, symmetric). -/
def owedTotal (entries : List ExEntry) (p : String) : ℚ :=
  ((entries.filter (fun e => e.split_between.contains p)).map owedShare).sum

/-- Modelled from the spec: net balance per participant — total paid minus
total owed. -/
def netBalance (entries : List ExEntry) (p : String) : ℚ :=
  paidTotal entries p - owedTotal entries p

theorem paidTotal_cons (e : ExEntry) (es : List ExEntry) (p : String) :
    paidTotal (e :: es) p
      = (if e.paid_by = p then e.amount else 0) + paidTotal es p := by
  by_cases h : e.paid_by = p
  · simp [paidTotal, List.filter_cons, h]
  · simp [paidTotal, List.filter_cons, h]

theorem owedTotal_cons (e : ExEntry) (es : List ExEntry) (p : String) :
    owedTotal (e :: es) p
      = (if p ∈ e.split_between then owedShare e else 0) + owedTotal es p := by
  by_cases h : p ∈ e.split_between
  · simp [owedTotal, List.filter_cons, h]
  · simp [owedTotal, List.filter_cons, h]

theorem sum_indicator_not_mem (ps : List String) (q : String) (x : ℚ)
    (h : q ∉ ps) : (ps.map (fun p => if q = p then x else 0)).sum = 0 := by
  induction ps with
  | nil => rfl
  | cons b ps ih =>
    have hqb : ¬ q = b := by
      intro hqb
      exact h (hqb ▸ List.mem_cons_self b ps)
    have hq : q ∉ ps := fun hq => h (List.mem_cons_of_mem b hq)
    simp [hqb, ih hq]

theorem sum_indicator_mem (ps : List String) (q : String) (x : ℚ)
    (hnodup : ps.Nodup) (hmem : q ∈ ps) :
    (ps.map (fun p => if q = p then x else 0)).sum = x := by
  induction ps with
  | nil => cases hmem
  | cons b ps ih =>
    rcases List.nodup_cons.mp hnodup with ⟨hb, hnd⟩
    by_cases hqb : q = b
    · subst hqb
      simp [sum_indicator_not_mem ps q x hb]
    · have hq : q ∈ ps := by
        rcases List.mem_cons.mp hmem with h | h
        · exact absurd h hqb
        · exact h
      simp only [List.map_cons, List.sum_cons, if_neg hqb, ih hnd hq]
      ring

theorem sum_indicator_contains (ps : List String) (l : List String) (x : ℚ) :
    (ps.map (fun p => if p ∈ l then x else 0)).sum
      = ((ps.filter (fun p => decide (p ∈ l))).length : ℚ) * x := by
  induction ps with
  | nil => simp
  | cons b ps ih =>
    by_cases hb : b ∈ l
    · simp only [List.map_cons, List.sum_cons, if_pos hb, List.filter_cons,
        decide_eq_true hb, if_true, List.length_cons, ih]
      push_cast
      ring
    · simp only [List.map_cons, List.sum_cons, if_neg hb, List.filter_cons,
        decide_eq_false hb, Bool.false_eq_true, if_false, ih]
      ring

theorem filter_contains_length (ps l : List String) (hps : ps.Nodup)
    (hl : l.Nodup) (hsub : ∀ a ∈ l, a ∈ ps) :
    (ps.filter (fun p => decide (p ∈ l))).length = l.length := by
  have h1 : (ps.filter (fun p => decide (p ∈ l))).Nodup := hps.filter _
  have h2 : ∀ a, a ∈ ps.filter (fun p => decide (p ∈ l)) ↔ a ∈ l := by
    intro a
    rw [List.mem_filter]
    constructor
    · intro ⟨_, hc⟩
      exact of_decide_eq_true hc
    · intro ha
      exact ⟨hsub a ha, decide_eq_true ha⟩
  exact ((List.perm_ext_iff_of_nodup h1 hl).mpr h2).length_eq

theorem sum_map_sub (f g : String → ℚ) (ps : List String) :
    (ps.map (fun p => f p - g p)).sum = (ps.map f).sum - (ps.map g).sum := by
  induction ps with
  | nil => simp
  | cons b ps ih =>
    simp only [List.map_cons, List.sum_cons, ih]
    ring

theorem sum_map_net_cons (ps : List String) (e : ExEntry) (es : List ExEntry) :
    (ps.map (netBalance (e :: es))).sum
      = (ps.map (fun p => (if e.paid_by = p then e.amount else 0)
          - (if p ∈ e.split_between then owedShare e else 0))).sum
        + (ps.map (netBalance es)).sum := by
  induction ps with
  | nil => simp
  | cons b ps ih =>
    have hpt : netBalance (e :: es) b
        = ((if e.paid_by = b then e.amount else 0)
          - (if b ∈ e.split_between then owedShare e else 0))
          + netBalance es b := by
      unfold netBalance
      rw [paidTotal_cons, owedTotal_cons]
      ring
    simp only [List.map_cons, List.sum_cons, ih, hpt]
    ring

theorem single_entry_zero (ps : List String) (e : ExEntry) (hps : ps.Nodup)
    (hpaid : e.paid_by ∈ ps) (hne : e.split_between ≠ [])
    (hnd : e.split_between.Nodup) (hsub : ∀ a ∈ e.split_between, a ∈ ps) :
    (ps.map (fun p => (if e.paid_by = p then e.amount else 0)
      - (if p ∈ e.split_between then owedShare e else 0))).sum = 0 := by
  rw [sum_map_sub (fun p => if e.paid_by = p then e.amount else 0)
      (fun p => if p ∈ e.split_between then owedShare e else 0) ps,
    sum_indicator_mem ps e.paid_by e.amount hps hpaid,
    sum_indicator_contains, filter_contains_length ps e.split_between hps hnd hsub]
  have hlen : (e.split_between.length : ℚ) ≠ 0 := by
    have hl0 : e.split_between.length ≠ 0 := by
      intro h0
      exact hne (List.length_eq_zero.mp h0)
    exact_mod_cast hl0
  rw [owedShare]
  field_simp

/-- The spec's worked example: participants A, B, C and the single entry
`{amount: 30, paid_by: A, split_between: [A, B, C]}`. -/
def exEntries : List ExEntry := [⟨"dinner", 30, "A", ["A", "B", "C"]⟩]

/-- **C5.** For an expense whose participants are distinct and whose every
entry is paid by a participant and split among a nonempty duplicate-free
subset of the participants, the net balances (total paid as `paid_by` minus
total owed across entries containing the participant in `split_between`,
each share being `amount / |split_between|`) sum to exactly 0 over ℚ; and on
the spec's example — participants [A, B, C], one entry
`{amount: 30, paid_by: A, split_between: [A, B, C]}` — the balances are
A: +20, B: -10, C: -10. -/
theorem C5_settlement_zero_sum (ps : List String) (es : List ExEntry)
    (hps : ps.Nodup)
    (hes : ∀ e ∈ es, e.paid_by ∈ ps ∧ e.split_between ≠ []
      ∧ e.split_between.Nodup ∧ ∀ a ∈ e.split_between, a ∈ ps) :
    (ps.map (netBalance es)).sum = 0
    ∧ netBalance exEntries "A" = 20
    ∧ netBalance exEntries "B" = -10
    ∧ netBalance exEntries "C" = -10 := by
  have hA : netBalance exEntries "A" = 20 := by
    simp [netBalance, paidTotal, owedTotal, owedShare, exEntries,
      List.filter_cons]
    norm_num
  have hB : netBalance exEntries "B" = -10 := by
    simp [netBalance, paidTotal, owedTotal, owedShare, exEntries,
      List.filter_cons]
    norm_num
  have hC : netBalance exEntries "C" = -10 := by
    simp [netBalance, paidTotal, owedTotal, owedShare, exEntries,
      List.filter_cons]
    norm_num
  refine ⟨?_, hA, hB, hC⟩
  induction es with
  | nil =>
    have h0 : ps.map (netBalance ([] : List ExEntry)) = ps.map (fun _ => (0 : ℚ)) := by
      refine List.map_congr_left ?_
      intro a _
      simp [netBalance, paidTotal, owedTotal]
    rw [h0]
    simp
  | cons e es ih =>
    obtain ⟨hpaid, hne, hnd, hsub⟩ := hes e (List.mem_cons_self e es)
    have hrest := ih (fun e' he' => hes e' (List.mem_cons_of_mem e he'))
    rw [sum_map_net_cons ps e es, single_entry_zero ps e hps hpaid hne hnd hsub,
      hrest]
    ring

/-- Witness for C5: the spec's example expense satisfies the hypotheses and
its three net balances sum to zero. -/
theorem C5_witness :
    (["A", "B", "C"].map (netBalance exEntries)).sum = 0
    ∧ netBalance exEntries "A" = 20
    ∧ netBalance exEntries "B" = -10
    ∧ netBalance exEntries "C" = -10 :=
  C5_settlement_zero_sum ["A", "B", "C"] exEntries (by decide)
    (by
      intro e he
      simp only [exEntries, List.mem_singleton] at he
      subst he
      refine ⟨by decide, by decide, by decide, by decide⟩)

end Microtools
